import Mathlib

/-!
Shallow embedding of the ledger core of `src/dashboard.py` (a Streamlit +
SQLite inventory and production tracker).  The four SQLite tables become
lists of rows; REAL columns become `ℚ`; `datetime.now()` becomes an abstract
clock `now` carried in the state; SQLite `AUTOINCREMENT` ids become explicit
counters.  Each mutating operation is a pure function from the database state
to (result, new state); the paths that show `st.error` without touching the
database return the state unchanged, mirroring the fact that those code paths
execute no UPDATE/DELETE statements.
-/

namespace CosmeticDashboard

/-- Row of the `inventory` table (dashboard.py lines 45-56):
id, 원료명 (name), "재고량 (g)" (stock), 유통기한 (expiration), 거래처 (vendor),
"단가 (원/kg)" (unitPrice), "MOQ (kg)" (moq), "리드타임 (일)" (leadTime). -/
structure InventoryRow where
  id : Nat
  name : String
  stock : ℚ
  expiration : Option String
  vendor : Option String
  unitPrice : ℚ
  moq : ℚ
  leadTime : Int
  deriving DecidableEq

/-- Row of the `formula` table (dashboard.py lines 59-66):
id, 제품명 (product), 원료명 (material), "사용량 (g/%)" (usage). -/
structure FormulaRow where
  id : Nat
  product : String
  material : String
  usage : ℚ
  deriving DecidableEq

/-- Row of the `production_history` table (dashboard.py lines 69-77):
id, 제품명 (product), "용량 (g)" (capacity), 수량 (units, INTEGER), 날짜 (date). -/
structure ProductionRow where
  id : Nat
  product : String
  capacity : ℚ
  units : Int
  date : Nat
  deriving DecidableEq

/-- Row of the `transactions` table (dashboard.py lines 80-89):
id, 원료명 (name), 유형 (ttype: the strings 입고 = inbound, 출고 = outbound),
"수량 (g)" (qty), 날짜 (date), 비고 (memo). -/
structure TransactionRow where
  id : Nat
  name : String
  ttype : String
  qty : ℚ
  date : Nat
  memo : Option String
  deriving DecidableEq

/-- Whole database state: the four tables, the AUTOINCREMENT counters of the
two tables whose generated ids the code reads back, and the current clock. -/
structure DB where
  inventory : List InventoryRow
  formula : List FormulaRow
  transactions : List TransactionRow
  production : List ProductionRow
  nextTransId : Nat
  nextProdId : Nat
  now : Nat
  deriving DecidableEq

/-- Error outcomes named by the spec taxonomy (section 7): the code surfaces
them as `st.error` / `(False, msg)` returns on the paths that mutate nothing. -/
inductive DashError where
  | notFound
  | noFormula
  deriving DecidableEq

/-- dashboard.py lines 29-33: `SELECT 원료명, "사용량 (g/%)" FROM formula WHERE
제품명 = ?` — the formula rows of one product, in insertion (rowid) order. -/
def get_formula_df (db : DB) (product_name : String) : List FormulaRow :=
  db.formula.filter (fun fr => fr.product = product_name)

/-- dashboard.py line 543: `inv_df.loc[inv_df[원료명] == ingredient, 재고량].sum()`
— the sum of the stock column over the rows whose name matches, as a fold. -/
def currentStock : List InventoryRow → String → ℚ
  | [], _ => 0
  | r :: rs, m => (if r.name = m then r.stock else 0) + currentStock rs m

/-- Number of inventory rows bearing a given name (the `k` of the UPDATE
statements' `WHERE 원료명 = ?` clause, which touches every matching row). -/
def countName (inv : List InventoryRow) (m : String) : Nat :=
  (inv.filter (fun r => r.name = m)).length

/-- The ledger UPDATE `SET "재고량 (g)" = "재고량 (g)" + d WHERE 원료명 = m`:
every row whose name matches gains `d`, every other row is untouched. -/
def adjustStock (inv : List InventoryRow) (m : String) (d : ℚ) : List InventoryRow :=
  inv.map (fun r => if r.name = m then { r with stock := r.stock + d } else r)

/-- dashboard.py lines 293-327 `record_transaction`: INSERT one transaction row
(quantity `float(num_or_zero(str(q)))`, which is the identity on a numeric
quantity, timestamp `datetime.now()`), then UPDATE inventory stock `+ q` on the
입고 branch and `- q` on the other branch, `WHERE 원료명 = m`. -/
def record_transaction (db : DB) (m ty : String) (q : ℚ) (memo : String) : DB :=
  let row : TransactionRow :=
    { id := db.nextTransId, name := m, ttype := ty, qty := q, date := db.now, memo := some memo }
  let inv :=
    if ty = "입고" then
      db.inventory.map (fun r => if r.name = m then { r with stock := r.stock + q } else r)
    else
      db.inventory.map (fun r => if r.name = m then { r with stock := r.stock - q } else r)
  { db with transactions := db.transactions ++ [row],
            nextTransId := db.nextTransId + 1,
            inventory := inv }

/-- dashboard.py lines 357-389 `delete_transaction_and_restore_inventory`:
SELECT the transaction by id (`fetchone`); if present, revert the stock
(입고 was cancelled: subtract; otherwise add), DELETE the row, commit; if
absent, show an error and execute no statement (state unchanged). -/
def delete_transaction_and_restore_inventory (db : DB) (trans_id : Nat) :
    Except DashError Unit × DB :=
  match db.transactions.find? (fun t => t.id = trans_id) with
  | some t =>
      let inv :=
        if t.ttype = "입고" then
          db.inventory.map (fun r => if r.name = t.name then { r with stock := r.stock - t.qty } else r)
        else
          db.inventory.map (fun r => if r.name = t.name then { r with stock := r.stock + t.qty } else r)
      (Except.ok (), { db with inventory := inv,
                               transactions := db.transactions.filter (fun u => ¬ u.id = trans_id) })
  | none => (Except.error DashError.notFound, db)

/-- dashboard.py lines 495-516 `insert_production_history`: INSERT one
production_history row (timestamp `datetime.now()`, id = `lastrowid`), then for
each `(ingredient, used_qty)` pair UPDATE inventory stock `- used_qty`
`WHERE 원료명 = ingredient`; returns the new row's id. -/
def insert_production_history (db : DB) (p : String) (cap : ℚ) (units : Int)
    (used_materials : List (String × ℚ)) : Nat × DB :=
  let run : ProductionRow :=
    { id := db.nextProdId, product := p, capacity := cap, units := units, date := db.now }
  let inv := used_materials.foldl
    (fun acc u => acc.map (fun r => if r.name = u.1 then { r with stock := r.stock - u.2 } else r))
    db.inventory
  (db.nextProdId,
   { db with production := db.production ++ [run],
             nextProdId := db.nextProdId + 1,
             inventory := inv })

/-- dashboard.py lines 533-553, the 생산 가능량 계산 button handler
(`planProduction` of the spec): over the product's formula rows, accumulate
`(ingredient, required = usage * cap * units, current = stock sum)` and a flag
that starts `true` and is set to `false` whenever `current < required`.  Pure:
it reads the state and returns only the table and the flag. -/
def planProduction (db : DB) (p : String) (cap : ℚ) (units : Int) :
    List (String × ℚ × ℚ) × Bool :=
  (get_formula_df db p).foldl
    (fun acc fr =>
      let required := fr.usage * cap * (units : ℚ)
      let current := currentStock db.inventory fr.material
      (acc.1 ++ [(fr.material, required, current)], if current < required then false else acc.2))
    ([], true)

/-- dashboard.py lines 567-569, the 생산 진행 확인 button handler
(`confirmProduction` of the spec): calls `insert_production_history` with
`used_materials = [(x[0], x[1]) for x in used_table]`, the (ingredient,
required) pairs computed by the plan step from the current formula. -/
def confirmProduction (db : DB) (p : String) (cap : ℚ) (units : Int) : Nat × DB :=
  let used := (planProduction db p cap units).1.map (fun x => (x.1, x.2.1))
  insert_production_history db p cap units used

/-- dashboard.py lines 706-749 `delete_production_history_and_restore`:
SELECT the run by id (absent: return failure, nothing executed); re-resolve the
product's CURRENT formula (empty: return failure, nothing executed); otherwise
for each formula row UPDATE inventory stock `+ usage * capacity * units`
`WHERE 원료명 = material`, DELETE the run row, commit. -/
def delete_production_history_and_restore (db : DB) (hist_id : Nat) :
    Except DashError Unit × DB :=
  match db.production.find? (fun h => h.id = hist_id) with
  | none => (Except.error DashError.notFound, db)
  | some run =>
      let df := get_formula_df db run.product
      if df = [] then (Except.error DashError.noFormula, db)
      else
        let inv := df.foldl
          (fun acc fr => acc.map (fun r =>
            if r.name = fr.material then
              { r with stock := r.stock + fr.usage * run.capacity * (run.units : ℚ) }
            else r))
          db.inventory
        (Except.ok (),
         { db with inventory := inv,
                   production := db.production.filter (fun h => ¬ h.id = hist_id) })

/-- Signed ledger delta of a transaction row: `+qty` for 입고 (inbound),
`-qty` otherwise (the code branches on equality with 입고). -/
def signedDelta (t : TransactionRow) : ℚ :=
  if t.ttype = "입고" then t.qty else -t.qty

/-- Sum of the signed deltas of the transaction rows whose id is at least the
cutoff `c` (used with `c` = the id counter at the start of a call sequence, so
that it ranges over exactly the transactions the sequence recorded). -/
def newDeltaSum (c : Nat) : List TransactionRow → ℚ
  | [] => 0
  | t :: ts => (if c ≤ t.id then signedDelta t else 0) + newDeltaSum c ts

/-- One call of the 입출고 기록 screen on a fixed material: either a
`record_transaction` call or a `delete_transaction_and_restore_inventory` call. -/
inductive TxOp where
  | record (ty : String) (q : ℚ) (memo : String)
  | delete (tid : Nat)
  deriving DecidableEq

/-- Apply one `TxOp` for material `m` to the state. -/
def applyTxOp (m : String) (db : DB) : TxOp → DB
  | TxOp.record ty q memo => record_transaction db m ty q memo
  | TxOp.delete tid => (delete_transaction_and_restore_inventory db tid).2

/-- Run a sequence of record/delete calls on material `m`, left to right. -/
def runOps (m : String) (db : DB) (ops : List TxOp) : DB :=
  ops.foldl (applyTxOp m) db

/-- The transaction ids targeted by the delete calls of a sequence. -/
def deleteTargets (ops : List TxOp) : List Nat :=
  ops.filterMap (fun op => match op with | TxOp.delete tid => some tid | _ => none)

/-- Iterated ledger adjustment: apply `adjustStock` for each (name, delta)
pair in order.  Both per-entry UPDATE loops of the production paths reduce to
this shape. -/
def adjustList (inv : List InventoryRow) : List (String × ℚ) → List InventoryRow
  | [] => inv
  | u :: us => adjustList (adjustStock inv u.1 u.2) us

/-- Inventory row with the given id, name and stock and empty metadata, used
to instantiate the theorems on concrete states. -/
def mkInvRow (i : Nat) (n : String) (s : ℚ) : InventoryRow :=
  { id := i, name := n, stock := s, expiration := none, vendor := none,
    unitPrice := 0, moq := 0, leadTime := 0 }

/-- Concrete state from the scenario of spec section 8: one material Oil-A
with 100 g of stock and one product Cream-X using 0.1 g of Oil-A per unit. -/
def sampleDB : DB :=
  { inventory := [mkInvRow 1 "Oil-A" 100],
    formula := [{ id := 1, product := "Cream-X", material := "Oil-A", usage := (1 : ℚ)/10 }],
    transactions := [],
    production := [],
    nextTransId := 1,
    nextProdId := 1,
    now := 0 }

/-- Concrete state whose material name A is carried by two inventory rows
(the model does not enforce name uniqueness). -/
def dupDB : DB :=
  { inventory := [mkInvRow 1 "A" 1, mkInvRow 2 "A" 2],
    formula := [],
    transactions := [],
    production := [],
    nextTransId := 1,
    nextProdId := 1,
    now := 0 }

/-- Concrete state with one inventory row A of 10 g and one pre-existing
inbound transaction of 5 g (id 1). -/
def preDB : DB :=
  { inventory := [mkInvRow 1 "A" 10],
    formula := [],
    transactions := [{ id := 1, name := "A", ttype := "입고", qty := 5, date := 0, memo := none }],
    production := [],
    nextTransId := 2,
    nextProdId := 1,
    now := 0 }

/-- Concrete state with one recorded inbound transaction of 50 g of Oil-A. -/
def txDB : DB :=
  { inventory := [mkInvRow 1 "Oil-A" 150],
    formula := [],
    transactions := [{ id := 1, name := "Oil-A", ttype := "입고", qty := 50,
                       date := 0, memo := none }],
    production := [],
    nextTransId := 2,
    nextProdId := 1,
    now := 0 }

/-- Concrete state with one production run whose product has no formula row
left (the formula table is empty). -/
def runDB : DB :=
  { inventory := [mkInvRow 1 "Oil-A" 50],
    formula := [],
    transactions := [],
    production := [{ id := 1, product := "Cream-X", capacity := 50, units := 10, date := 0 }],
    nextTransId := 1,
    nextProdId := 2,
    now := 0 }

/-- Concrete state with a duplicated material name, one transaction, one
production run and a one-line formula, used to exercise every UPDATE path. -/
def dupFullDB : DB :=
  { inventory := [mkInvRow 1 "A" 1, mkInvRow 2 "A" 2],
    formula := [{ id := 1, product := "P", material := "A", usage := 2 }],
    transactions := [{ id := 1, name := "A", ttype := "입고", qty := 5, date := 0, memo := none }],
    production := [{ id := 1, product := "P", capacity := 3, units := 4, date := 0 }],
    nextTransId := 2,
    nextProdId := 2,
    now := 0 }

lemma currentStock_cons (r : InventoryRow) (rs : List InventoryRow) (m : String) :
    currentStock (r :: rs) m = (if r.name = m then r.stock else 0) + currentStock rs m := rfl

lemma adjustStock_cons (r : InventoryRow) (rs : List InventoryRow) (m : String) (d : ℚ) :
    adjustStock (r :: rs) m d =
      (if r.name = m then { r with stock := r.stock + d } else r) :: adjustStock rs m d := rfl

lemma countName_cons (r : InventoryRow) (rs : List InventoryRow) (m : String) :
    countName (r :: rs) m = (if r.name = m then 1 else 0) + countName rs m := by
  by_cases h : r.name = m <;> simp [countName, List.filter_cons, h, Nat.add_comm]

lemma currentStock_adjustStock_self (inv : List InventoryRow) (m : String) (d : ℚ) :
    currentStock (adjustStock inv m d) m = currentStock inv m + (countName inv m : ℚ) * d := by
  induction inv with
  | nil => simp [adjustStock, currentStock, countName]
  | cons r rs ih =>
    rw [adjustStock_cons, countName_cons]
    by_cases h : r.name = m
    · simp only [h, if_true, currentStock_cons, ih, if_pos rfl]
      push_cast
      ring
    · simp only [h, if_false, currentStock_cons, ih, if_neg h]
      push_cast
      ring

lemma currentStock_adjustStock_other (inv : List InventoryRow) (m m2 : String) (d : ℚ)
    (h : m2 ≠ m) :
    currentStock (adjustStock inv m d) m2 = currentStock inv m2 := by
  induction inv with
  | nil => rfl
  | cons r rs ih =>
    rw [adjustStock_cons, currentStock_cons, currentStock_cons, ih]
    by_cases hr : r.name = m
    · simp [hr, Ne.symm h]
    · rw [if_neg hr]

lemma countName_adjustStock (inv : List InventoryRow) (m m2 : String) (d : ℚ) :
    countName (adjustStock inv m d) m2 = countName inv m2 := by
  induction inv with
  | nil => rfl
  | cons r rs ih =>
    rw [adjustStock_cons, countName_cons, countName_cons, ih]
    by_cases hr : r.name = m
    · have h1 : ({ r with stock := r.stock + d } : InventoryRow).name = r.name := rfl
      rw [if_pos hr, h1]
    · rw [if_neg hr]

lemma currentStock_eq_sum_filter (inv : List InventoryRow) (m : String) :
    currentStock inv m = ((inv.filter (fun r => r.name = m)).map (fun r => r.stock)).sum := by
  induction inv with
  | nil => rfl
  | cons r rs ih =>
    by_cases h : r.name = m <;> simp [currentStock, List.filter_cons, h, ih]

lemma currentStock_eq_zero (inv : List InventoryRow) (m : String)
    (h : ∀ r ∈ inv, r.name ≠ m) : currentStock inv m = 0 := by
  induction inv with
  | nil => rfl
  | cons r rs ih =>
    rw [currentStock_cons, if_neg (h r (by simp)), ih (fun u hu => h u (by simp [hu]))]
    ring

lemma adjustStock_no_match (inv : List InventoryRow) (m : String) (d : ℚ)
    (h : ∀ r ∈ inv, r.name ≠ m) : adjustStock inv m d = inv := by
  induction inv with
  | nil => rfl
  | cons r rs ih =>
    rw [adjustStock_cons, if_neg (h r (by simp)), ih (fun u hu => h u (by simp [hu]))]

lemma map_sub_eq_adjustStock (inv : List InventoryRow) (m : String) (q : ℚ) :
    inv.map (fun r => if r.name = m then { r with stock := r.stock - q } else r)
      = adjustStock inv m (-q) := by
  induction inv with
  | nil => rfl
  | cons r rs ih =>
    rw [List.map_cons, adjustStock_cons, ih]
    by_cases hr : r.name = m <;> simp [hr, sub_eq_add_neg]

lemma record_transaction_inventory (db : DB) (m ty : String) (q : ℚ) (memo : String) :
    (record_transaction db m ty q memo).inventory
      = adjustStock db.inventory m (if ty = "입고" then q else -q) := by
  by_cases h : ty = "입고"
  · simp [record_transaction, h, adjustStock]
  · simp [record_transaction, h, map_sub_eq_adjustStock]

lemma record_transaction_transactions (db : DB) (m ty : String) (q : ℚ) (memo : String) :
    (record_transaction db m ty q memo).transactions
      = db.transactions ++
        [{ id := db.nextTransId, name := m, ttype := ty, qty := q, date := db.now,
           memo := some memo }] := rfl

lemma record_transaction_nextTransId (db : DB) (m ty : String) (q : ℚ) (memo : String) :
    (record_transaction db m ty q memo).nextTransId = db.nextTransId + 1 := rfl

lemma delete_transaction_not_found (db : DB) (tid : Nat)
    (h : db.transactions.find? (fun t => t.id = tid) = none) :
    delete_transaction_and_restore_inventory db tid = (Except.error DashError.notFound, db) := by
  simp [delete_transaction_and_restore_inventory, h]

lemma delete_transaction_found (db : DB) (tid : Nat) (t : TransactionRow)
    (h : db.transactions.find? (fun u => u.id = tid) = some t) :
    delete_transaction_and_restore_inventory db tid =
      (Except.ok (),
       { db with inventory := adjustStock db.inventory t.name
                    (if t.ttype = "입고" then -t.qty else t.qty),
                 transactions := db.transactions.filter (fun u => ¬ u.id = tid) }) := by
  by_cases hty : t.ttype = "입고"
  · simp [delete_transaction_and_restore_inventory, h, hty, map_sub_eq_adjustStock]
  · simp [delete_transaction_and_restore_inventory, h, hty, adjustStock]

lemma adjustStock_adjustStock_same (inv : List InventoryRow) (m : String) (d1 d2 : ℚ) :
    adjustStock (adjustStock inv m d1) m d2 = adjustStock inv m (d1 + d2) := by
  induction inv with
  | nil => rfl
  | cons r rs ih =>
    rw [adjustStock_cons, adjustStock_cons, adjustStock_cons, ih]
    congr 1
    obtain ⟨i, n, s, e, v, up, mq, lt⟩ := r
    by_cases hr : n = m <;> simp [hr, add_assoc]

lemma adjustStock_zero (inv : List InventoryRow) (m : String) :
    adjustStock inv m 0 = inv := by
  induction inv with
  | nil => rfl
  | cons r rs ih =>
    rw [adjustStock_cons, ih]
    congr 1
    obtain ⟨i, n, s, e, v, up, mq, lt⟩ := r
    by_cases hr : n = m <;> simp [hr]

lemma adjustStock_comm (inv : List InventoryRow) (m1 m2 : String) (d1 d2 : ℚ) :
    adjustStock (adjustStock inv m1 d1) m2 d2 = adjustStock (adjustStock inv m2 d2) m1 d1 := by
  induction inv with
  | nil => rfl
  | cons r rs ih =>
    rw [adjustStock_cons, adjustStock_cons, adjustStock_cons, adjustStock_cons, ih]
    congr 1
    obtain ⟨i, n, s, e, v, up, mq, lt⟩ := r
    by_cases h1 : n = m1 <;> by_cases h2 : n = m2
    · subst h1
      subst h2
      simp [add_right_comm]
    · subst h1
      simp [h2]
    · subst h2
      simp [h1]
    · simp [h1, h2]

lemma adjustStock_adjustList (inv : List InventoryRow) (l : List (String × ℚ))
    (m : String) (d : ℚ) :
    adjustStock (adjustList inv l) m d = adjustList (adjustStock inv m d) l := by
  induction l generalizing inv with
  | nil => rfl
  | cons u us ih =>
    simp only [adjustList]
    rw [ih, adjustStock_comm]

lemma adjustList_cancel (l : List (String × ℚ)) (inv : List InventoryRow) :
    adjustList (adjustList inv (l.map (fun u => (u.1, -u.2)))) l = inv := by
  induction l generalizing inv with
  | nil => rfl
  | cons u us ih =>
    simp only [List.map_cons, adjustList]
    rw [adjustStock_adjustList, adjustStock_adjustStock_same, neg_add_cancel,
      adjustStock_zero]
    exact ih inv

lemma foldl_sub_eq_adjustList (used : List (String × ℚ)) (inv : List InventoryRow) :
    used.foldl (fun acc u => acc.map (fun r =>
        if r.name = u.1 then { r with stock := r.stock - u.2 } else r)) inv
      = adjustList inv (used.map (fun u => (u.1, -u.2))) := by
  induction used generalizing inv with
  | nil => rfl
  | cons u us ih =>
    simp only [List.foldl_cons, List.map_cons, adjustList]
    rw [map_sub_eq_adjustStock]
    exact ih _

lemma foldl_restore_eq_adjustList (df : List FormulaRow) (cap u : ℚ)
    (inv : List InventoryRow) :
    df.foldl (fun acc fr => acc.map (fun r =>
        if r.name = fr.material then { r with stock := r.stock + fr.usage * cap * u } else r)) inv
      = adjustList inv (df.map (fun fr => (fr.material, fr.usage * cap * u))) := by
  induction df generalizing inv with
  | nil => rfl
  | cons fr frs ih =>
    simp only [List.foldl_cons, List.map_cons, adjustList]
    exact ih _

lemma insert_production_history_inventory (db : DB) (p : String) (cap : ℚ) (units : Int)
    (used : List (String × ℚ)) :
    ((insert_production_history db p cap units used).2).inventory
      = adjustList db.inventory (used.map (fun u => (u.1, -u.2))) := by
  simp only [insert_production_history]
  exact foldl_sub_eq_adjustList used db.inventory

lemma planProduction_go (db : DB) (cap : ℚ) (units : Int) (l : List FormulaRow) :
    ∀ acc : List (String × ℚ × ℚ) × Bool,
      l.foldl (fun acc fr =>
        let required := fr.usage * cap * (units : ℚ)
        let current := currentStock db.inventory fr.material
        (acc.1 ++ [(fr.material, required, current)],
         if current < required then false else acc.2)) acc
      = (acc.1 ++ l.map (fun fr => (fr.material, fr.usage * cap * (units : ℚ),
            currentStock db.inventory fr.material)),
         acc.2 && l.all (fun fr =>
            !decide (currentStock db.inventory fr.material < fr.usage * cap * (units : ℚ)))) := by
  induction l with
  | nil =>
    intro acc
    simp
  | cons fr frs ih =>
    intro acc
    rw [List.foldl_cons, ih]
    by_cases h : currentStock db.inventory fr.material < fr.usage * cap * (units : ℚ) <;>
      simp [h]

lemma planProduction_eq (db : DB) (p : String) (cap : ℚ) (units : Int) :
    planProduction db p cap units
      = ((get_formula_df db p).map (fun fr => (fr.material, fr.usage * cap * (units : ℚ),
            currentStock db.inventory fr.material)),
         (get_formula_df db p).all (fun fr =>
            !decide (currentStock db.inventory fr.material < fr.usage * cap * (units : ℚ)))) := by
  unfold planProduction
  rw [planProduction_go]
  simp

lemma confirmProduction_fst (db : DB) (p : String) (cap : ℚ) (units : Int) :
    (confirmProduction db p cap units).1 = db.nextProdId := rfl

lemma confirmProduction_production (db : DB) (p : String) (cap : ℚ) (units : Int) :
    ((confirmProduction db p cap units).2).production
      = db.production ++
          [{ id := db.nextProdId, product := p, capacity := cap,
             units := units, date := db.now }] := rfl

lemma confirmProduction_formula (db : DB) (p : String) (cap : ℚ) (units : Int) :
    ((confirmProduction db p cap units).2).formula = db.formula := rfl

lemma confirmProduction_inventory (db : DB) (p : String) (cap : ℚ) (units : Int) :
    ((confirmProduction db p cap units).2).inventory
      = adjustList db.inventory ((get_formula_df db p).map
          (fun fr => (fr.material, -(fr.usage * cap * (units : ℚ))))) := by
  simp only [confirmProduction]
  rw [insert_production_history_inventory, planProduction_eq]
  simp only [List.map_map]
  congr 1

lemma find?_append_right {α : Type} (l : List α) (a : α) (p : α → Bool)
    (h : ∀ x ∈ l, ¬ p x = true) :
    (l ++ [a]).find? p = if p a then some a else none := by
  induction l with
  | nil =>
    cases hpa : p a <;> simp [List.find?, hpa]
  | cons x xs ih =>
    have hx : ¬ p x = true := h x (by simp)
    rw [List.cons_append, List.find?_cons_of_neg _ hx]
    exact ih (fun y hy => h y (by simp [hy]))

lemma newDeltaSum_append (c : Nat) (l1 l2 : List TransactionRow) :
    newDeltaSum c (l1 ++ l2) = newDeltaSum c l1 + newDeltaSum c l2 := by
  induction l1 with
  | nil => simp [newDeltaSum]
  | cons t ts ih =>
    simp only [List.cons_append, newDeltaSum, List.append_eq, ih]
    ring

lemma newDeltaSum_eq_zero (c : Nat) (l : List TransactionRow)
    (h : ∀ t ∈ l, t.id < c) :
    newDeltaSum c l = 0 := by
  induction l with
  | nil => rfl
  | cons t ts ih =>
    have ht : ¬ c ≤ t.id := not_le.mpr (h t (by simp))
    simp [newDeltaSum, ht, ih (fun u hu => h u (by simp [hu]))]

lemma newDeltaSum_filter_remove (c : Nat) (l : List TransactionRow) (tid : Nat)
    (t : TransactionRow) (hnd : (l.map (fun x => x.id)).Nodup)
    (hfind : l.find? (fun x => x.id = tid) = some t) :
    newDeltaSum c (l.filter (fun u => ¬ u.id = tid))
      = newDeltaSum c l - (if c ≤ t.id then signedDelta t else 0) := by
  induction l with
  | nil => simp at hfind
  | cons x xs ih =>
    rw [List.map_cons, List.nodup_cons] at hnd
    by_cases hx : x.id = tid
    · have hteq : t = x := by
        rw [List.find?_cons_of_pos _ (by simpa using hx)] at hfind
        exact (Option.some_inj.mp hfind).symm
      subst hteq
      have hxs : xs.filter (fun u => ¬ u.id = tid) = xs := by
        rw [List.filter_eq_self]
        intro u hu
        simp only [decide_eq_true_eq]
        intro hco
        exact hnd.1 (List.mem_map.mpr ⟨u, hu, by rw [hco, hx]⟩)
      rw [List.filter_cons_of_neg (by simpa using hx), hxs]
      simp only [newDeltaSum]
      ring
    · have hfind2 : xs.find? (fun u => u.id = tid) = some t := by
        rw [List.find?_cons_of_neg _ (by simpa using hx)] at hfind
        exact hfind
      rw [List.filter_cons_of_pos (by simpa using hx)]
      simp only [newDeltaSum, ih hnd.2 hfind2]
      ring

/-- C2: confirming a production run (생산 진행 확인, which records the run and
deducts the plan quantities computed from the current formula) and then
immediately deleting that run (which restores quantities re-derived from the
same, unchanged formula) returns every inventory row — hence every material's
stock — to exactly its pre-confirmation value; the only hypothesis is the
AUTOINCREMENT freshness of the new run id. -/
theorem c2_confirm_delete_restores_stock (db : DB) (p : String) (cap : ℚ) (units : Int)
    (hfresh : ∀ r ∈ db.production, r.id ≠ db.nextProdId) :
    (((delete_production_history_and_restore (confirmProduction db p cap units).2
        (confirmProduction db p cap units).1)).2).inventory = db.inventory := by
  rw [confirmProduction_fst]
  have hfind : ((confirmProduction db p cap units).2).production.find?
      (fun h => h.id = db.nextProdId)
      = some { id := db.nextProdId, product := p, capacity := cap,
               units := units, date := db.now } := by
    rw [confirmProduction_production, find?_append_right]
    · simp
    · intro x hx
      simpa using hfresh x hx
  have hform : get_formula_df ((confirmProduction db p cap units).2) p
      = get_formula_df db p := by
    unfold get_formula_df
    rw [confirmProduction_formula]
  simp only [delete_production_history_and_restore, hfind]
  by_cases hF : get_formula_df db p = []
  · simp only [hform, hF, eq_self_iff_true, if_true]
    rw [confirmProduction_inventory, hF]
    rfl
  · simp only [hform]
    rw [if_neg hF]
    rw [foldl_restore_eq_adjustList, confirmProduction_inventory]
    have hmaps : ((get_formula_df db p).map (fun fr =>
          (fr.material, fr.usage * cap * (units : ℚ)))).map (fun u => (u.1, -u.2))
        = (get_formula_df db p).map (fun fr =>
          (fr.material, -(fr.usage * cap * (units : ℚ)))) := by
      rw [List.map_map]
      rfl
    rw [← hmaps]
    exact adjustList_cancel _ db.inventory

lemma runOps_conserved (m : String) (c : Nat) (ops : List TxOp) :
    ∀ db : DB,
      (∀ t ∈ db.transactions, t.id < db.nextTransId) →
      ((db.transactions.map (fun t => t.id)).Nodup) →
      c ≤ db.nextTransId →
      (∀ tid ∈ deleteTargets ops, tid < c → ∀ t ∈ db.transactions, t.id ≠ tid) →
      (∀ t ∈ db.transactions, c ≤ t.id → t.name = m) →
      countName db.inventory m = 1 →
      currentStock (runOps m db ops).inventory m - newDeltaSum c (runOps m db ops).transactions
        = currentStock db.inventory m - newDeltaSum c db.transactions := by
  induction ops with
  | nil =>
    intro db _ _ _ _ _ _
    rfl
  | cons op ops ih =>
    intro db ha hb hc hd he hf
    have hstep : runOps m db (op :: ops) = runOps m (applyTxOp m db op) ops := by
      simp [runOps]
    rw [hstep]
    cases op with
    | record ty q memo =>
      have happ : applyTxOp m db (TxOp.record ty q memo) = record_transaction db m ty q memo :=
        rfl
      rw [happ]
      have htr := record_transaction_transactions db m ty q memo
      have hid := record_transaction_nextTransId db m ty q memo
      have hinv := record_transaction_inventory db m ty q memo
      have ha2 : ∀ t ∈ (record_transaction db m ty q memo).transactions,
          t.id < (record_transaction db m ty q memo).nextTransId := by
        intro t ht
        rw [htr] at ht
        rw [hid]
        rcases List.mem_append.mp ht with h1 | h1
        · exact Nat.lt_succ_of_lt (ha t h1)
        · simp at h1
          rw [h1]
          exact Nat.lt_succ_self _
      have hb2 : (((record_transaction db m ty q memo).transactions.map
          (fun t => t.id)).Nodup) := by
        rw [htr, List.map_append]
        refine List.Nodup.append hb (by simp) ?_
        intro a h1 h2
        simp at h2
        rcases List.mem_map.mp h1 with ⟨u, hu, hui⟩
        have := ha u hu
        omega
      have hc2 : c ≤ (record_transaction db m ty q memo).nextTransId := by
        rw [hid]
        exact Nat.le_succ_of_le hc
      have hd2 : ∀ tid ∈ deleteTargets ops, tid < c →
          ∀ t ∈ (record_transaction db m ty q memo).transactions, t.id ≠ tid := by
        intro tid htid hlt t ht
        rw [htr] at ht
        rcases List.mem_append.mp ht with h1 | h1
        · exact hd tid htid hlt t h1
        · simp at h1
          rw [h1]
          show db.nextTransId ≠ tid
          omega
      have he2 : ∀ t ∈ (record_transaction db m ty q memo).transactions,
          c ≤ t.id → t.name = m := by
        intro t ht hct
        rw [htr] at ht
        rcases List.mem_append.mp ht with h1 | h1
        · exact he t h1 hct
        · simp at h1
          rw [h1]
      have hf2 : countName (record_transaction db m ty q memo).inventory m = 1 := by
        rw [hinv, countName_adjustStock]
        exact hf
      rw [ih _ ha2 hb2 hc2 hd2 he2 hf2]
      have hcs : currentStock (record_transaction db m ty q memo).inventory m
          = currentStock db.inventory m + (if ty = "입고" then q else -q) := by
        rw [hinv, currentStock_adjustStock_self, hf]
        push_cast
        ring
      have hnd : newDeltaSum c (record_transaction db m ty q memo).transactions
          = newDeltaSum c db.transactions + (if ty = "입고" then q else -q) := by
        rw [htr, newDeltaSum_append]
        have : newDeltaSum c [{ id := db.nextTransId, name := m, ttype := ty, qty := q,
                                date := db.now, memo := some memo }]
            = (if ty = "입고" then q else -q) := by
          simp only [newDeltaSum, signedDelta]
          rw [if_pos hc]
          ring
        rw [this]
      rw [hcs, hnd]
      ring
    | delete tid =>
      have htargets : deleteTargets (TxOp.delete tid :: ops) = tid :: deleteTargets ops := rfl
      have happ : applyTxOp m db (TxOp.delete tid)
          = (delete_transaction_and_restore_inventory db tid).2 := rfl
      rw [happ]
      cases hfind : db.transactions.find? (fun t => t.id = tid) with
      | none =>
        have hsame : (delete_transaction_and_restore_inventory db tid).2 = db := by
          rw [delete_transaction_not_found db tid hfind]
        rw [hsame]
        refine ih db ha hb hc ?_ he hf
        intro tid2 h2 hlt t ht
        exact hd tid2 (by rw [htargets]; exact List.mem_cons_of_mem _ h2) hlt t ht
      | some t =>
        have hteq : t.id = tid := by simpa using List.find?_some hfind
        have htmem : t ∈ db.transactions := List.mem_of_find?_eq_some hfind
        have hge : c ≤ tid := by
          by_contra hlt
          exact hd tid (by rw [htargets]; exact List.mem_cons_self _ _) (not_le.mp hlt)
            t htmem hteq
        have hname : t.name = m := he t htmem (by rw [hteq]; exact hge)
        have hdel := delete_transaction_found db tid t hfind
        have hinv2 : (delete_transaction_and_restore_inventory db tid).2.inventory
            = adjustStock db.inventory m (if t.ttype = "입고" then -t.qty else t.qty) := by
          rw [hdel, ← hname]
        have htr2 : (delete_transaction_and_restore_inventory db tid).2.transactions
            = db.transactions.filter (fun u => ¬ u.id = tid) := by
          rw [hdel]
        have hcounter : (delete_transaction_and_restore_inventory db tid).2.nextTransId
            = db.nextTransId := by
          rw [hdel]
        have ha2 : ∀ u ∈ (delete_transaction_and_restore_inventory db tid).2.transactions,
            u.id < (delete_transaction_and_restore_inventory db tid).2.nextTransId := by
          intro u hu
          rw [htr2] at hu
          rw [hcounter]
          exact ha u (List.mem_of_mem_filter hu)
        have hb2 : (((delete_transaction_and_restore_inventory db tid).2.transactions.map
            (fun t => t.id)).Nodup) := by
          rw [htr2]
          exact List.Nodup.sublist (List.Sublist.map _ (List.filter_sublist _)) hb
        have hc2 : c ≤ (delete_transaction_and_restore_inventory db tid).2.nextTransId := by
          rw [hcounter]
          exact hc
        have hd2 : ∀ tid2 ∈ deleteTargets ops, tid2 < c →
            ∀ u ∈ (delete_transaction_and_restore_inventory db tid).2.transactions,
              u.id ≠ tid2 := by
          intro tid2 h2 hlt u hu
          rw [htr2] at hu
          exact hd tid2 (by rw [htargets]; exact List.mem_cons_of_mem _ h2) hlt u
            (List.mem_of_mem_filter hu)
        have he2 : ∀ u ∈ (delete_transaction_and_restore_inventory db tid).2.transactions,
            c ≤ u.id → u.name = m := by
          intro u hu hcu
          rw [htr2] at hu
          exact he u (List.mem_of_mem_filter hu) hcu
        have hf2 : countName (delete_transaction_and_restore_inventory db tid).2.inventory m
            = 1 := by
          rw [hinv2, countName_adjustStock]
          exact hf
        rw [ih _ ha2 hb2 hc2 hd2 he2 hf2]
        have hcs : currentStock (delete_transaction_and_restore_inventory db tid).2.inventory m
            = currentStock db.inventory m - signedDelta t := by
          rw [hinv2, currentStock_adjustStock_self, hf]
          by_cases hty : t.ttype = "입고" <;> (simp [signedDelta, hty]; try ring)
        have hnd2 : newDeltaSum c (delete_transaction_and_restore_inventory db tid).2.transactions
            = newDeltaSum c db.transactions - signedDelta t := by
          rw [htr2, newDeltaSum_filter_remove c db.transactions tid t hb hfind]
          rw [if_pos (by rw [hteq]; exact hge)]
        rw [hcs, hnd2]
        ring

/-- C1 (counterexample): the claim as stated fails in two ways.  First, when
the material name is carried by two inventory rows, a single inbound record of
5 g moves the summed stock by 2 * 5 = 10, not by the signed-delta sum 5 of the
remaining transactions.  Second, when a delete call targets a pre-existing
transaction (id 1, inbound 5 g), the stock moves by -5 while no transaction of
the sequence remains, so the claimed sum is 0. -/
theorem c1_counterexample :
    ¬ (currentStock (runOps "A" dupDB [TxOp.record "입고" 5 ""]).inventory "A"
        = currentStock dupDB.inventory "A"
          + newDeltaSum dupDB.nextTransId
              (runOps "A" dupDB [TxOp.record "입고" 5 ""]).transactions)
    ∧ ¬ (currentStock (runOps "A" preDB [TxOp.delete 1]).inventory "A"
        = currentStock preDB.inventory "A"
          + newDeltaSum preDB.nextTransId
              (runOps "A" preDB [TxOp.delete 1]).transactions) := by
  constructor
  · norm_num [runOps, applyTxOp, record_transaction, dupDB, mkInvRow, currentStock,
      newDeltaSum, signedDelta]
  · norm_num [runOps, applyTxOp, delete_transaction_and_restore_inventory, preDB,
      mkInvRow, currentStock, newDeltaSum, signedDelta, List.find?]

/-- C1 (amended): for every sequence of record/delete calls on a material,
provided the material's name is carried by exactly one inventory row, the
start state has fresh AUTOINCREMENT ids and distinct (primary-key) ids, and
the delete calls target only transactions created within the sequence (no
pre-existing id), the stock after the sequence equals the stock before plus
the sum of the signed deltas of exactly the sequence's transactions that
remain un-deleted at the end, regardless of interleaving. -/
theorem c1_stock_ledger_invariant (db : DB) (m : String) (ops : List TxOp)
    (h1 : ∀ t ∈ db.transactions, t.id < db.nextTransId)
    (h2 : (db.transactions.map (fun t => t.id)).Nodup)
    (h3 : ∀ tid ∈ deleteTargets ops, ∀ t ∈ db.transactions, t.id ≠ tid)
    (h4 : countName db.inventory m = 1) :
    currentStock (runOps m db ops).inventory m
      = currentStock db.inventory m
        + newDeltaSum db.nextTransId (runOps m db ops).transactions := by
  have h0 : newDeltaSum db.nextTransId db.transactions = 0 :=
    newDeltaSum_eq_zero _ _ h1
  have he : ∀ t ∈ db.transactions, db.nextTransId ≤ t.id → t.name = m := by
    intro t ht hct
    exact absurd (h1 t ht) (not_lt.mpr hct)
  have hcons := runOps_conserved m db.nextTransId ops db h1 h2 le_rfl
    (fun tid htid _ t ht => h3 tid htid t ht) he h4
  rw [h0] at hcons
  linarith

/-- C1 witness: the Oil-A scenario of spec section 8 — record inbound 50 g,
record outbound 30 g, delete the outbound transaction (id 2): the stock is
100 + 50 = 150 and the remaining in-sequence delta sum is 50. -/
theorem c1_stock_ledger_invariant_witness :
    currentStock (runOps "Oil-A" sampleDB
        [TxOp.record "입고" 50 "", TxOp.record "출고" 30 "", TxOp.delete 2]).inventory "Oil-A"
      = currentStock sampleDB.inventory "Oil-A"
        + newDeltaSum sampleDB.nextTransId (runOps "Oil-A" sampleDB
            [TxOp.record "입고" 50 "", TxOp.record "출고" 30 "", TxOp.delete 2]).transactions :=
  c1_stock_ledger_invariant sampleDB "Oil-A"
    [TxOp.record "입고" 50 "", TxOp.record "출고" 30 "", TxOp.delete 2]
    (by decide) (by decide) (by decide) (by decide)

/-- C2 witness: on the concrete Cream-X / Oil-A state, confirming a run of 10
units of 50 g and deleting it returns the inventory to its initial rows. -/
theorem c2_confirm_delete_restores_stock_witness :
    (((delete_production_history_and_restore
        (confirmProduction sampleDB "Cream-X" 50 10).2
        (confirmProduction sampleDB "Cream-X" 50 10).1)).2).inventory
      = sampleDB.inventory :=
  c2_confirm_delete_restores_stock sampleDB "Cream-X" 50 10 (by decide)

/-- C3: `record_transaction` appends exactly one transaction row carrying the
given quantity and the current timestamp, applies the ledger adjustment with
delta +q for 입고 (inbound) and -q otherwise, and touches no other table. -/
theorem c3_record_contract (db : DB) (m ty : String) (q : ℚ) (memo : String) :
    (record_transaction db m ty q memo).transactions
      = db.transactions ++
          [{ id := db.nextTransId, name := m, ttype := ty, qty := q,
             date := db.now, memo := some memo }]
    ∧ (record_transaction db m ty q memo).inventory
      = adjustStock db.inventory m (if ty = "입고" then q else -q)
    ∧ (record_transaction db m ty q memo).formula = db.formula
    ∧ (record_transaction db m ty q memo).production = db.production :=
  ⟨record_transaction_transactions db m ty q memo,
   record_transaction_inventory db m ty q memo, rfl, rfl⟩

/-- C4: deleting an existing transaction id applies the inverse of its
original ledger delta (-qty for 입고, +qty otherwise) to its material and
removes the row; deleting a missing id fails with NotFoundError and returns
the state completely unchanged. -/
theorem c4_delete_transaction (db : DB) (tid : Nat) :
    (∀ t, db.transactions.find? (fun u => u.id = tid) = some t →
        delete_transaction_and_restore_inventory db tid
          = (Except.ok (),
             { db with inventory := adjustStock db.inventory t.name
                          (if t.ttype = "입고" then -t.qty else t.qty),
                       transactions := db.transactions.filter (fun u => ¬ u.id = tid) }))
    ∧ (db.transactions.find? (fun u => u.id = tid) = none →
        delete_transaction_and_restore_inventory db tid
          = (Except.error DashError.notFound, db)) :=
  ⟨fun t ht => delete_transaction_found db tid t ht,
   fun h => delete_transaction_not_found db tid h⟩

/-- C4 witness: deleting the recorded inbound transaction (id 1) reverts the
50 g and removes the row; deleting the missing id 99 fails with NotFoundError
and leaves the state unchanged. -/
theorem c4_delete_transaction_witness :
    delete_transaction_and_restore_inventory txDB 1
      = (Except.ok (),
         { txDB with inventory := adjustStock txDB.inventory "Oil-A" (-(50 : ℚ)),
                     transactions := txDB.transactions.filter (fun u => ¬ u.id = 1) })
    ∧ delete_transaction_and_restore_inventory txDB 99
      = (Except.error DashError.notFound, txDB) :=
  ⟨(c4_delete_transaction txDB 1).1
      { id := 1, name := "Oil-A", ttype := "입고", qty := 50, date := 0, memo := none }
      rfl,
   (c4_delete_transaction txDB 99).2 rfl⟩

/-- C5: the feasibility check returns, per formula entry in order, the pair
(required = usage * unitCapacity * totalUnits, available = summed current
stock), its flag is true exactly when every entry has available at least
required, and a name with no inventory row contributes available = 0; the
check is a pure function of the state (it returns no state). -/
theorem c5_plan_production (db : DB) (p mat : String) (cap : ℚ) (units : Int) :
    (planProduction db p cap units).1
      = (get_formula_df db p).map (fun fr =>
          (fr.material, fr.usage * cap * (units : ℚ), currentStock db.inventory fr.material))
    ∧ ((planProduction db p cap units).2 = true ↔
        ∀ fr ∈ get_formula_df db p,
          fr.usage * cap * (units : ℚ) ≤ currentStock db.inventory fr.material)
    ∧ ((∀ r ∈ db.inventory, r.name ≠ mat) → currentStock db.inventory mat = 0) := by
  refine ⟨?_, ?_, currentStock_eq_zero db.inventory mat⟩
  · rw [planProduction_eq]
  · rw [planProduction_eq]
    simp only [List.all_eq_true, Bool.not_eq_eq_eq_not, Bool.not_true, decide_eq_false_iff_not,
      not_lt]

/-- C5 witness: for Cream-X at 50 g over 10 units the plan table is one line
(Oil-A, required 50 g, available 100 g); the name Nonexistent, carried by no
row, has summed stock 0. -/
theorem c5_plan_production_witness :
    (planProduction sampleDB "Cream-X" 50 10).1 = [("Oil-A", 50, 100)]
    ∧ currentStock sampleDB.inventory "Nonexistent" = 0 := by
  constructor
  · rw [(c5_plan_production sampleDB "Cream-X" "Nonexistent" 50 10).1]
    norm_num [sampleDB, mkInvRow, get_formula_df, currentStock]
  · exact (c5_plan_production sampleDB "Cream-X" "Nonexistent" 50 10).2.2 (by decide)

/-- C6: deleting a production run whose product has no formula row left fails
with NoFormulaError and returns the state completely unchanged — the run row
is kept and no stock moves. -/
theorem c6_delete_run_no_formula (db : DB) (hid : Nat) (run : ProductionRow)
    (hfind : db.production.find? (fun h => h.id = hid) = some run)
    (hF : get_formula_df db run.product = []) :
    delete_production_history_and_restore db hid
      = (Except.error DashError.noFormula, db) := by
  simp [delete_production_history_and_restore, hfind, hF]

/-- C6 witness: the single run of runDB (id 1, product Cream-X) has no
formula row, so its deletion fails with NoFormulaError and changes nothing. -/
theorem c6_delete_run_no_formula_witness :
    delete_production_history_and_restore runDB 1
      = (Except.error DashError.noFormula, runDB) :=
  c6_delete_run_no_formula runDB 1
    { id := 1, product := "Cream-X", capacity := 50, units := 10, date := 0 }
    rfl rfl

/-- C7: stock deduction has no floor at zero: on both the outbound-transaction
path and the production-confirmation path, a nonnegative deduction exceeding
the summed current stock of a name carried by at least one row drives the
summed stock strictly negative, with no error and no clamp. -/
theorem c7_negative_stock (db : DB) (m pn : String) (q cap : ℚ) (units : Int) (memo : String)
    (hk : 1 ≤ countName db.inventory m) (hq : 0 ≤ q)
    (hlt : currentStock db.inventory m < q) :
    currentStock (record_transaction db m "출고" q memo).inventory m < 0
    ∧ currentStock ((insert_production_history db pn cap units [(m, q)]).2).inventory m < 0 := by
  have h1k : (1 : ℚ) ≤ (countName db.inventory m : ℚ) := by
    exact_mod_cast hk
  have hkq : q ≤ (countName db.inventory m : ℚ) * q := le_mul_of_one_le_left hq h1k
  constructor
  · have hrec : currentStock (record_transaction db m "출고" q memo).inventory m
        = currentStock db.inventory m + (countName db.inventory m : ℚ) * (-q) := by
      rw [record_transaction_inventory, if_neg (by decide), currentStock_adjustStock_self]
    rw [hrec]
    nlinarith
  · have hins : currentStock ((insert_production_history db pn cap units [(m, q)]).2).inventory m
        = currentStock db.inventory m + (countName db.inventory m : ℚ) * (-q) := by
      rw [insert_production_history_inventory]
      show currentStock (adjustStock db.inventory m (-q)) m = _
      rw [currentStock_adjustStock_self]
    rw [hins]
    nlinarith

/-- C7 witness: with 100 g of Oil-A in one row, an outbound record of 150 g
and a production deduction of 150 g each leave the summed stock at -50 g. -/
theorem c7_negative_stock_witness :
    currentStock (record_transaction sampleDB "Oil-A" "출고" 150 "").inventory "Oil-A" < 0
    ∧ currentStock ((insert_production_history sampleDB "Cream-X" 50 10
        [("Oil-A", 150)]).2).inventory "Oil-A" < 0 :=
  c7_negative_stock sampleDB "Oil-A" "Cream-X" 150 50 10 ""
    (by decide) (by norm_num)
    (by norm_num [currentStock, sampleDB, mkInvRow])

/-- C8: currentStock of a name is the sum of the stock column over all rows
whose name matches (duplicate rows included), and is 0 when no row matches. -/
theorem c8_current_stock (inv : List InventoryRow) (m : String) :
    currentStock inv m = ((inv.filter (fun r => r.name = m)).map (fun r => r.stock)).sum
    ∧ ((∀ r ∈ inv, r.name ≠ m) → currentStock inv m = 0) :=
  ⟨currentStock_eq_sum_filter inv m, currentStock_eq_zero inv m⟩

/-- C8 witness: over the two rows named A the summed stock is the sum of the
filtered stock column, and the unmatched name Zzz has summed stock 0. -/
theorem c8_current_stock_witness :
    currentStock dupDB.inventory "A"
      = ((dupDB.inventory.filter (fun r => r.name = "A")).map (fun r => r.stock)).sum
    ∧ currentStock dupDB.inventory "Zzz" = 0 :=
  ⟨(c8_current_stock dupDB.inventory "A").1,
   (c8_current_stock dupDB.inventory "Zzz").2 (by decide)⟩

/-- C9: recording a transaction for a name matched by no inventory row still
appends the transaction row (the insert is not rejected), while the inventory
table is left entirely unchanged, because the UPDATE matches zero rows. -/
theorem c9_record_unknown_material (db : DB) (m ty : String) (q : ℚ) (memo : String)
    (h : ∀ r ∈ db.inventory, r.name ≠ m) :
    (record_transaction db m ty q memo).transactions
      = db.transactions ++
          [{ id := db.nextTransId, name := m, ttype := ty, qty := q,
             date := db.now, memo := some memo }]
    ∧ (record_transaction db m ty q memo).inventory = db.inventory := by
  refine ⟨record_transaction_transactions db m ty q memo, ?_⟩
  rw [record_transaction_inventory]
  exact adjustStock_no_match db.inventory m _ h

/-- C9 witness: recording 5 g inbound of the unknown name Ghost appends the
transaction row and leaves the Oil-A inventory row untouched. -/
theorem c9_record_unknown_material_witness :
    (record_transaction sampleDB "Ghost" "입고" 5 "").transactions
      = sampleDB.transactions ++
          [{ id := sampleDB.nextTransId, name := "Ghost", ttype := "입고", qty := 5,
             date := sampleDB.now, memo := some "" }]
    ∧ (record_transaction sampleDB "Ghost" "입고" 5 "").inventory = sampleDB.inventory :=
  c9_record_unknown_material sampleDB "Ghost" "입고" 5 "" (by decide)

/-- C10: when a name is carried by k >= 1 inventory rows, one ledger
adjustment for that name moves the summed stock by k times the delta, on all
four UPDATE paths: transaction record, transaction-delete revert,
production-confirm deduct, and production-delete restore. -/
theorem c10_duplicate_rows (db : DB) (m ty memo pn : String) (q cap : ℚ) (units : Int)
    (tid hid : Nat) (_hk : 1 ≤ countName db.inventory m) :
    (currentStock (record_transaction db m ty q memo).inventory m
      = currentStock db.inventory m
        + (countName db.inventory m : ℚ) * (if ty = "입고" then q else -q))
    ∧ (∀ t, db.transactions.find? (fun u => u.id = tid) = some t → t.name = m →
        currentStock ((delete_transaction_and_restore_inventory db tid).2).inventory m
          = currentStock db.inventory m
            + (countName db.inventory m : ℚ) * (if t.ttype = "입고" then -t.qty else t.qty))
    ∧ (currentStock ((insert_production_history db pn cap units [(m, q)]).2).inventory m
        = currentStock db.inventory m - (countName db.inventory m : ℚ) * q)
    ∧ (∀ run fr, db.production.find? (fun h => h.id = hid) = some run →
        get_formula_df db run.product = [fr] → fr.material = m →
        currentStock ((delete_production_history_and_restore db hid).2).inventory m
          = currentStock db.inventory m
            + (countName db.inventory m : ℚ)
              * (fr.usage * run.capacity * (run.units : ℚ))) := by
  refine ⟨?_, ?_, ?_, ?_⟩
  · rw [record_transaction_inventory, currentStock_adjustStock_self]
  · intro t hfind hname
    rw [delete_transaction_found db tid t hfind]
    show currentStock (adjustStock db.inventory t.name _) m = _
    rw [hname, currentStock_adjustStock_self]
  · rw [insert_production_history_inventory]
    show currentStock (adjustStock db.inventory m (-q)) m = _
    rw [currentStock_adjustStock_self]
    ring
  · intro run fr hfind hdf hmat
    simp only [delete_production_history_and_restore, hfind, hdf]
    rw [if_neg (List.cons_ne_nil fr [])]
    show currentStock (adjustStock db.inventory fr.material
        (fr.usage * run.capacity * (run.units : ℚ))) m = _
    rw [hmat, currentStock_adjustStock_self]

/-- C10 witness: with the name A on two rows (k = 2), the four paths move the
summed stock by 2 * 5, 2 * (-5), 2 * (-5) and 2 * (2 * 3 * 4) respectively. -/
theorem c10_duplicate_rows_witness :
    (currentStock (record_transaction dupFullDB "A" "입고" 5 "").inventory "A"
      = currentStock dupFullDB.inventory "A"
        + (countName dupFullDB.inventory "A" : ℚ)
          * (if ("입고" : String) = "입고" then (5 : ℚ) else -5))
    ∧ (currentStock ((delete_transaction_and_restore_inventory dupFullDB 1).2).inventory "A"
        = currentStock dupFullDB.inventory "A"
          + (countName dupFullDB.inventory "A" : ℚ)
            * (if ("입고" : String) = "입고" then -(5 : ℚ) else 5))
    ∧ (currentStock ((insert_production_history dupFullDB "P" 3 4 [("A", 5)]).2).inventory "A"
        = currentStock dupFullDB.inventory "A" - (countName dupFullDB.inventory "A" : ℚ) * 5)
    ∧ (currentStock ((delete_production_history_and_restore dupFullDB 1).2).inventory "A"
        = currentStock dupFullDB.inventory "A"
          + (countName dupFullDB.inventory "A" : ℚ) * ((2 : ℚ) * 3 * 4)) := by
  have h := c10_duplicate_rows dupFullDB "A" "입고" "" "P" 5 3 4 1 1 (by decide)
  exact ⟨h.1,
    h.2.1 { id := 1, name := "A", ttype := "입고", qty := 5, date := 0, memo := none }
      rfl rfl,
    h.2.2.1,
    h.2.2.2 { id := 1, product := "P", capacity := 3, units := 4, date := 0 }
      { id := 1, product := "P", material := "A", usage := 2 }
      rfl rfl rfl⟩

end CosmeticDashboard
